import Mathlib

/-!
Verification of `scripts/classify_pdbs.py`.

The script classifies a batch of PDB identifiers, grouped under string keys,
into three category mappings (`complete`, `incomplete`, `not_downloadable`)
by calling the external capability `download_pdb` on each identifier,
checkpointing progress periodically (sequential mode) and once at the end,
pruning empty groups, and optionally printing a percentage summary.

Embedding choices:
- A Python `dict` preserving insertion order becomes an association list
  `List (Group × List PdbId)`; the keys of a real `dict` are distinct, which
  appears as a `Nodup` hypothesis where it matters.
- The external capability `download_pdb` is an opaque deterministic function
  `PdbId → Except Unit Bool`: `Except.error` models a raised exception,
  `Except.ok b` models a normal return whose truthiness is `b`.
- File writes (`save_pkl`) are modelled by accumulating the written snapshots
  in the run state (`saves`); `print` output is not modelled.
- Python's `/` raises `ZeroDivisionError` on a zero denominator, so division
  in `verbose_analysis` is modelled by `pydiv` returning `Except`; its result
  (and the later `* 100`) is binary64 floating point, modelled exactly by
  `roundB64`, the IEEE 754 round-to-nearest-even value as a rational.
- The thread-pool run of `parallel_classify_pdb_batch` executes the submitted
  tasks in an unspecified interleaving; since every task performs one atomic
  append, a run is modelled as a fold over an arbitrary permutation `sched`
  of the submitted task list.
-/

set_option autoImplicit false

namespace ClassifyPdbs

abbrev PdbId := String

abbrev Group := String

/-- A grouped identifier collection or category mapping: insertion-ordered
association list, mirroring a Python `dict` of lists. -/
abbrev Mapping := List (Group × List PdbId)

/-- The deterministic retrieval capability: the behaviour of
`download_pdb COMPLETE_PDB_FILES (pdb_id + ".pdb")` on each identifier.
`Except.error ()` models a raised exception, `Except.ok b` a normal return
of truthiness `b`. -/
abbrev Capability := PdbId → Except Unit Bool

/-- The three classification outcomes of one identifier. -/
inductive Outcome where
  | complete
  | incomplete
  | not_retrievable
deriving DecidableEq, Repr

/-- Outcome of the classification of one identifier: the `try`/`if result`
logic shared by `classify_pdb_batch` and `process_pdb`. -/
def outcomeOf (dl : Capability) (pdbId : PdbId) : Outcome :=
  match dl pdbId with
  | Except.ok true => Outcome.complete
  | Except.ok false => Outcome.incomplete
  | Except.error _ => Outcome.not_retrievable

/-- `{k: [] for k in data.keys()}`: a fresh mapping with the same keys and
empty value lists. -/
def initMapping (data : Mapping) : Mapping :=
  data.map (fun kv => (kv.1, []))

/-- `m[k].append(x)`: append `x` to the list bound to key `k` (every entry
holding `k`; a real `dict` holds it once). An absent key is a no-op here;
in the script the key is always present since the mapping was initialised
from `data.keys()`. -/
def appendAt (m : Mapping) (k : Group) (x : PdbId) : Mapping :=
  m.map (fun kv => if kv.1 == k then (kv.1, kv.2 ++ [x]) else kv)

/-- `sum([len(v) for v in data.values()])`. -/
def totalIds (data : Mapping) : Nat :=
  (data.map (fun kv => kv.2.length)).sum

/-- The `{k: v for k, v in m.items() if v}` filtering of empty lists. -/
def prune (m : Mapping) : Mapping :=
  m.filter (fun kv => !kv.2.isEmpty)

/-- One checkpoint write: the data passed to the three `save_pkl` calls. -/
structure Snapshot where
  complete : Mapping
  incomplete : Mapping
  not_downloadable : Mapping
deriving DecidableEq, Repr

/-- The loop state of `classify_pdb_batch`: the three accumulating mappings,
the global `count`, and the log of checkpoint writes performed so far. -/
structure SeqState where
  complete : Mapping
  incomplete : Mapping
  not_downloadable : Mapping
  count : Nat
  saves : List Snapshot
deriving DecidableEq, Repr

/-- The `if count % 10 == 0` checkpoint block of `classify_pdb_batch`. -/
def checkpointIfDue (s : SeqState) : SeqState :=
  if s.count % 10 = 0 then
    { s with saves := s.saves ++ [Snapshot.mk s.complete s.incomplete s.not_downloadable] }
  else s

/-- One iteration of the inner loop of `classify_pdb_batch` on identifier
`pdbId` of group `k`: increment `count`, classify, append, and reach the
checkpoint block only when no exception was raised (the `except` branch ends
in `continue`, skipping the `if count % 10 == 0` block). -/
def process_one (dl : Capability) (k : Group) (pdbId : PdbId) (s : SeqState) : SeqState :=
  match dl pdbId with
  | Except.ok true =>
      checkpointIfDue { s with count := s.count + 1, complete := appendAt s.complete k pdbId }
  | Except.ok false =>
      checkpointIfDue { s with count := s.count + 1, incomplete := appendAt s.incomplete k pdbId }
  | Except.error _ =>
      { s with count := s.count + 1, not_downloadable := appendAt s.not_downloadable k pdbId }

/-- The nested `for k, v in data.items(): for pdb_id in v:` loops of
`classify_pdb_batch`. -/
def run_groups (dl : Capability) (data : Mapping) (s : SeqState) : SeqState :=
  data.foldl (fun s kv => kv.2.foldl (fun s pdbId => process_one dl kv.1 pdbId s) s) s

/-- The initial loop state of `classify_pdb_batch`: three freshly initialised
mappings, `count = 0`, nothing written yet. -/
def initState (data : Mapping) : SeqState :=
  SeqState.mk (initMapping data) (initMapping data) (initMapping data) 0 []

/-- The task list submitted to the executor, one `(group, identifier)` task
per item, in submission order. -/
def tasks : Mapping → List (Group × PdbId)
  | [] => []
  | kv :: rest => kv.2.map (fun pdbId => (kv.1, pdbId)) ++ tasks rest

/-- `2 ^ e` in the rationals, for an integer exponent. -/
def qpow2 (e : Int) : Rat :=
  if 0 ≤ e then ((2 ^ e.toNat : Nat) : Rat) else 1 / ((2 ^ (-e).toNat : Nat) : Rat)

/-- `⌊log2 n⌋` by halving, with explicit fuel (`n` itself suffices) so that
the recursion is structural and evaluates inside the kernel. -/
def natLog2Aux : Nat → Nat → Nat
  | 0, _ => 0
  | fuel + 1, n => if n < 2 then 0 else natLog2Aux fuel (n / 2) + 1

/-- `⌊log2 n⌋` (0 at 0 and 1). -/
def natLog2 (n : Nat) : Nat := natLog2Aux n n

/-- For `q > 0`, the unique `e` with `2 ^ e ≤ q < 2 ^ (e + 1)`. With
`q = a / b` in lowest terms, `a / b` lies in `(2 ^ (d - 1), 2 ^ (d + 1))`
for `d = ⌊log2 a⌋ - ⌊log2 b⌋`, so the answer is `d` or `d - 1`, decided by
one comparison. (Junk value at `q ≤ 0`; never used there.) -/
def floorLog2Q (q : Rat) : Int :=
  let a := q.num.toNat
  let b := q.den
  let d : Int := (natLog2 a : Int) - (natLog2 b : Int)
  if qpow2 d ≤ q then d else d - 1

/-- Round a positive rational to the nearest 53-bit-significand value
(IEEE 754 binary64 round-to-nearest, ties to even): scale into
`[2 ^ 52, 2 ^ 53)`, round the scaled mantissa to an integer, scale back. -/
def roundPosB64 (q : Rat) : Rat :=
  let e := floorLog2Q q
  let m := q * qpow2 (52 - e)
  let n := m.floor
  let r := m - (n : Rat)
  let n2 := if (1 : Rat) / 2 < r then n + 1
    else if r < (1 : Rat) / 2 then n
    else if n % 2 = 0 then n else n + 1
  (n2 : Rat) * qpow2 (e - 52)

/-- The binary64 value of a rational: the IEEE 754 double-precision
round-to-nearest-even result, represented exactly as a rational. The
exponent is unbounded here: overflow and subnormals are not modelled, which
only matters for count/total ratios outside `[2 ^ -1022, 2 ^ 1024)` — not
reachable from any realizable list of identifiers. -/
def roundB64 (q : Rat) : Rat :=
  if q = 0 then 0
  else if 0 < q then roundPosB64 q
  else - roundPosB64 (-q)

/-- `total / number_of_pdb_ids`, with Python semantics: a zero denominator
raises `ZeroDivisionError`; otherwise `int / int` true division returns the
correctly rounded binary64 value of the exact quotient. -/
def pydiv (a b : Rat) : Except Unit Rat :=
  if b = 0 then Except.error () else Except.ok (roundB64 (a / b))

/-- Python float multiplication (`x * 100`): correctly rounded binary64
product. -/
def pymul (a b : Rat) : Rat :=
  roundB64 (a * b)

/-- `sum([len(v) for v in m.values()])` over one category mapping. -/
def mappingTotal (m : Mapping) : Nat :=
  (m.map (fun kv => kv.2.length)).sum

/-- `verbose_analysis`: computes each category total as the sum of entry
lengths, and each percentage as `total / number_of_pdb_ids * 100` in
binary64 floating point. Returns the three percentages in place of printing
them; a zero `number_of_pdb_ids` raises at the first division. -/
def verbose_analysis (complete incomplete not_downloadable : Mapping)
    (number_of_pdb_ids : Nat) : Except Unit (Rat × Rat × Rat) := do
  let total_complete := mappingTotal complete
  let total_incomplete := mappingTotal incomplete
  let total_not_downloadable := mappingTotal not_downloadable
  let c ← pydiv (total_complete : Rat) (number_of_pdb_ids : Rat)
  let i ← pydiv (total_incomplete : Rat) (number_of_pdb_ids : Rat)
  let n ← pydiv (total_not_downloadable : Rat) (number_of_pdb_ids : Rat)
  Except.ok (pymul c 100, pymul i 100, pymul n 100)

/-- Observable result of one batch run: the three pruned mappings it
persisted last, the `number_of_pdb_ids` it computed from the input, the log
of checkpoint writes, and the percentages the verbose analysis produced. -/
structure BatchResult where
  complete : Mapping
  incomplete : Mapping
  not_downloadable : Mapping
  number_of_pdb_ids : Nat
  saves : List Snapshot
  analysis : Option (Rat × Rat × Rat)
deriving DecidableEq, Repr

/-- `classify_pdb_batch`: sequential batch run. Computes
`number_of_pdb_ids` from the input, runs the nested loops, prunes empty
groups, performs the final checkpoint write of the pruned mappings, and (when
`verbose`) runs the analysis, propagating its exception if it raises. -/
def classify_pdb_batch (dl : Capability) (data : Mapping) (verbose : Bool) :
    Except Unit BatchResult :=
  let number_of_pdb_ids := totalIds data
  let sf := run_groups dl data (initState data)
  let complete := prune sf.complete
  let incomplete := prune sf.incomplete
  let not_downloadable := prune sf.not_downloadable
  let saves := sf.saves ++ [Snapshot.mk complete incomplete not_downloadable]
  if verbose then
    match verbose_analysis complete incomplete not_downloadable number_of_pdb_ids with
    | Except.error e => Except.error e
    | Except.ok qs =>
        Except.ok (BatchResult.mk complete incomplete not_downloadable number_of_pdb_ids saves (some qs))
  else
    Except.ok (BatchResult.mk complete incomplete not_downloadable number_of_pdb_ids saves none)

/-- Shared accumulator state of `parallel_classify_pdb_batch`. -/
structure ParState where
  complete : Mapping
  incomplete : Mapping
  not_downloadable : Mapping
deriving DecidableEq, Repr

/-- One task of the pool: the body of the inner function `process_pdb`. -/
def process_pdb (dl : Capability) (k : Group) (pdbId : PdbId) (s : ParState) : ParState :=
  match dl pdbId with
  | Except.ok true => { s with complete := appendAt s.complete k pdbId }
  | Except.ok false => { s with incomplete := appendAt s.incomplete k pdbId }
  | Except.error _ => { s with not_downloadable := appendAt s.not_downloadable k pdbId }

/-- The pool execution of all submitted tasks in completion order `sched`
(a permutation of `tasks data`), starting from the three fresh mappings. -/
def parallel_run (dl : Capability) (data : Mapping) (sched : List (Group × PdbId)) : ParState :=
  sched.foldl (fun s t => process_pdb dl t.1 t.2 s)
    (ParState.mk (initMapping data) (initMapping data) (initMapping data))

/-- `parallel_classify_pdb_batch`: computes `number_of_pdb_ids` from the
input, runs all tasks (in completion order `sched`), prunes empty groups,
performs the single (final) checkpoint write, and optionally the analysis. -/
def parallel_classify_pdb_batch (dl : Capability) (data : Mapping)
    (sched : List (Group × PdbId)) (verbose : Bool) : Except Unit BatchResult :=
  let number_of_pdb_ids := totalIds data
  let sf := parallel_run dl data sched
  let complete := prune sf.complete
  let incomplete := prune sf.incomplete
  let not_downloadable := prune sf.not_downloadable
  let saves := [Snapshot.mk complete incomplete not_downloadable]
  if verbose then
    match verbose_analysis complete incomplete not_downloadable number_of_pdb_ids with
    | Except.error e => Except.error e
    | Except.ok qs =>
        Except.ok (BatchResult.mk complete incomplete not_downloadable number_of_pdb_ids saves (some qs))
  else
    Except.ok (BatchResult.mk complete incomplete not_downloadable number_of_pdb_ids saves none)

/-- Specification-side description of one category mapping before pruning:
each group keeps, in input order, exactly its identifiers classified to the
given category. -/
def categoryOf (dl : Capability) (data : Mapping) (cat : Outcome) : Mapping :=
  data.map (fun kv => (kv.1, kv.2.filter (fun pdbId => outcomeOf dl pdbId == cat)))

/-- The value list bound to key `k` in a mapping (`[]` when absent). -/
def entryOf (m : Mapping) (k : Group) : List PdbId :=
  ((m.find? (fun kv => kv.1 == k)).map (fun kv => kv.2)).getD []

/-- Number of checkpoint writes performed while processing a task list
starting from global counter value `c`: one write per task that brings the
counter to a multiple of 10 and is not classified `not_retrievable` (the
`continue` in the `except` branch skips the checkpoint block). -/
def dueSaves (dl : Capability) : Nat → List (Group × PdbId) → Nat
  | _, [] => 0
  | c, t :: ts =>
      (if (c + 1) % 10 = 0 ∧ outcomeOf dl t.2 ≠ Outcome.not_retrievable then 1 else 0)
        + dueSaves dl (c + 1) ts

/-! ### Proof infrastructure: loop characterizations -/

/-- Bool form of "task `t` is classified to category `cat`". -/
def catP (dl : Capability) (cat : Outcome) : Group × PdbId → Bool :=
  fun t => outcomeOf dl t.2 == cat

lemma checkpointIfDue_complete (s : SeqState) : (checkpointIfDue s).complete = s.complete := by
  unfold checkpointIfDue; split <;> rfl

lemma checkpointIfDue_incomplete (s : SeqState) : (checkpointIfDue s).incomplete = s.incomplete := by
  unfold checkpointIfDue; split <;> rfl

lemma checkpointIfDue_not_downloadable (s : SeqState) :
    (checkpointIfDue s).not_downloadable = s.not_downloadable := by
  unfold checkpointIfDue; split <;> rfl

lemma checkpointIfDue_count (s : SeqState) : (checkpointIfDue s).count = s.count := by
  unfold checkpointIfDue; split <;> rfl

lemma checkpointIfDue_saves_length (s : SeqState) :
    (checkpointIfDue s).saves.length
      = s.saves.length + (if s.count % 10 = 0 then 1 else 0) := by
  unfold checkpointIfDue; split <;> simp [*]

/-- The nested loops of `classify_pdb_batch` process exactly the flattened
task list, in order. -/
lemma run_groups_eq_foldl_tasks (dl : Capability) (data : Mapping) :
    ∀ s : SeqState,
      run_groups dl data s = (tasks data).foldl (fun s t => process_one dl t.1 t.2 s) s := by
  induction data with
  | nil => intro s; rfl
  | cons kv rest ih =>
      intro s
      show run_groups dl rest (kv.2.foldl (fun s pdbId => process_one dl kv.1 pdbId s) s) = _
      rw [ih, tasks, List.foldl_append, List.foldl_map]

/-- Folding a conditional `appendAt` over a task list appends, to each entry,
exactly the (second components of the) tasks that match its key and satisfy
the predicate, in task order. -/
lemma foldl_condAppend (p : Group × PdbId → Bool) (ts : List (Group × PdbId)) :
    ∀ m : Mapping,
      ts.foldl (fun m t => if p t then appendAt m t.1 t.2 else m) m
        = m.map (fun kv =>
            (kv.1, kv.2 ++ (ts.filter (fun t => t.1 == kv.1 && p t)).map (fun t => t.2))) := by
  induction ts with
  | nil => intro m; simp
  | cons t ts ih =>
      intro m
      rw [List.foldl_cons]
      cases hp : p t with
      | true =>
          simp only [hp, if_true]
          rw [ih, appendAt, List.map_map]
          refine List.map_congr_left (fun kv _ => ?_)
          simp only [Function.comp]
          by_cases hk : kv.1 = t.1
          · simp [hk, hp, List.filter_cons, List.append_assoc]
          · simp [hk, Ne.symm hk, hp, List.filter_cons]
      | false =>
          simp only [hp, Bool.false_eq_true, if_false]
          rw [ih]
          refine List.map_congr_left (fun kv _ => ?_)
          simp [hp, List.filter_cons]

/-- The `complete` component of the task fold accumulates the tasks
classified `Complete`. -/
lemma foldl_tasks_complete (dl : Capability) (ts : List (Group × PdbId)) :
    ∀ s : SeqState,
      ((ts.foldl (fun s t => process_one dl t.1 t.2 s) s).complete)
        = ts.foldl (fun m t => if catP dl Outcome.complete t then appendAt m t.1 t.2 else m)
            s.complete := by
  induction ts with
  | nil => intro s; rfl
  | cons t ts ih =>
      intro s
      rw [List.foldl_cons, List.foldl_cons, ih]
      congr 1
      cases h : dl t.2 with
      | ok b =>
          cases b <;>
            simp [process_one, h, checkpointIfDue_complete, catP, outcomeOf]
      | error e =>
          simp [process_one, h, checkpointIfDue_complete, catP, outcomeOf]

/-- The `incomplete` component of the task fold accumulates the tasks
classified `Incomplete`. -/
lemma foldl_tasks_incomplete (dl : Capability) (ts : List (Group × PdbId)) :
    ∀ s : SeqState,
      ((ts.foldl (fun s t => process_one dl t.1 t.2 s) s).incomplete)
        = ts.foldl (fun m t => if catP dl Outcome.incomplete t then appendAt m t.1 t.2 else m)
            s.incomplete := by
  induction ts with
  | nil => intro s; rfl
  | cons t ts ih =>
      intro s
      rw [List.foldl_cons, List.foldl_cons, ih]
      congr 1
      cases h : dl t.2 with
      | ok b =>
          cases b <;>
            simp [process_one, h, checkpointIfDue_incomplete, catP, outcomeOf]
      | error e =>
          simp [process_one, h, checkpointIfDue_incomplete, catP, outcomeOf]

/-- The `not_downloadable` component of the task fold accumulates the tasks
classified `NotRetrievable`. -/
lemma foldl_tasks_not_downloadable (dl : Capability) (ts : List (Group × PdbId)) :
    ∀ s : SeqState,
      ((ts.foldl (fun s t => process_one dl t.1 t.2 s) s).not_downloadable)
        = ts.foldl
            (fun m t => if catP dl Outcome.not_retrievable t then appendAt m t.1 t.2 else m)
            s.not_downloadable := by
  induction ts with
  | nil => intro s; rfl
  | cons t ts ih =>
      intro s
      rw [List.foldl_cons, List.foldl_cons, ih]
      congr 1
      cases h : dl t.2 with
      | ok b =>
          cases b <;>
            simp [process_one, h, checkpointIfDue_not_downloadable, catP, outcomeOf]
      | error e =>
          simp [process_one, h, checkpointIfDue_not_downloadable, catP, outcomeOf]

/-- Every task increments the global counter exactly once, whatever its
outcome. -/
lemma foldl_tasks_count (dl : Capability) (ts : List (Group × PdbId)) :
    ∀ s : SeqState,
      ((ts.foldl (fun s t => process_one dl t.1 t.2 s) s).count) = s.count + ts.length := by
  induction ts with
  | nil => intro s; simp
  | cons t ts ih =>
      intro s
      rw [List.foldl_cons, ih]
      have hc : (process_one dl t.1 t.2 s).count = s.count + 1 := by
        cases h : dl t.2 with
        | ok b => cases b <;> simp [process_one, h, checkpointIfDue_count]
        | error e => simp [process_one, h]
      rw [hc]
      simp [List.length_cons]
      omega

/-- Every iteration increments `count` exactly once. -/
lemma process_one_count (dl : Capability) (k : Group) (x : PdbId) (s : SeqState) :
    (process_one dl k x s).count = s.count + 1 := by
  cases h : dl x with
  | ok b => cases b <;> simp [process_one, h, checkpointIfDue_count]
  | error e => simp [process_one, h]

/-- One iteration performs a checkpoint write exactly when the incremented
counter is a multiple of 10 and the identifier was not classified
`NotRetrievable` (the `except` branch ends in `continue`). -/
lemma process_one_saves_length (dl : Capability) (k : Group) (x : PdbId) (s : SeqState) :
    (process_one dl k x s).saves.length
      = s.saves.length
        + (if (s.count + 1) % 10 = 0 ∧ outcomeOf dl x ≠ Outcome.not_retrievable then 1 else 0) := by
  cases h : dl x with
  | ok b =>
      cases b <;> simp [process_one, h, checkpointIfDue_saves_length, outcomeOf]
  | error e => simp [process_one, h, outcomeOf]

/-- The number of checkpoint writes performed by a task fold is `dueSaves`. -/
lemma foldl_tasks_saves_length (dl : Capability) (ts : List (Group × PdbId)) :
    ∀ s : SeqState,
      ((ts.foldl (fun s t => process_one dl t.1 t.2 s) s).saves).length
        = s.saves.length + dueSaves dl s.count ts := by
  induction ts with
  | nil => intro s; simp [dueSaves]
  | cons t ts ih =>
      intro s
      rw [List.foldl_cons, ih, process_one_saves_length, process_one_count, dueSaves]
      omega

lemma dueSaves_append (dl : Capability) (xs ys : List (Group × PdbId)) :
    ∀ c : Nat, dueSaves dl c (xs ++ ys) = dueSaves dl c xs + dueSaves dl (c + xs.length) ys := by
  induction xs with
  | nil => intro c; simp [dueSaves]
  | cons x xs ih =>
      intro c
      rw [List.cons_append, dueSaves, dueSaves, ih]
      have h1 : c + (x :: xs).length = c + 1 + xs.length := by
        simp [List.length_cons]
        omega
      rw [h1]
      omega

/-- A stretch of tasks over which the counter crosses no multiple of 10
performs no checkpoint write. -/
lemma dueSaves_eq_zero (dl : Capability) (ts : List (Group × PdbId)) :
    ∀ c : Nat, (∀ j, j < ts.length → (c + j + 1) % 10 ≠ 0) → dueSaves dl c ts = 0 := by
  induction ts with
  | nil => intro c _; rfl
  | cons t ts ih =>
      intro c h
      rw [dueSaves]
      have h0 : (c + 1) % 10 ≠ 0 := by
        have := h 0 (by simp); simpa using this
      have hz : dueSaves dl (c + 1) ts = 0 := by
        refine ih (c + 1) (fun j hj => ?_)
        have := h (j + 1) (by simp only [List.length_cons]; omega)
        omega
      rw [if_neg (fun hc => h0 hc.1), hz]

lemma tasks_length (data : Mapping) : (tasks data).length = totalIds data := by
  induction data with
  | nil => rfl
  | cons kv rest ih => simp [tasks, totalIds, ih]

/-- No task of groups that do not hold key `k` survives a filter on key `k`. -/
lemma tasks_filter_not_key (p : Group × PdbId → Bool) (k : Group) :
    ∀ data : Mapping, k ∉ data.map (fun kv => kv.1) →
      (tasks data).filter (fun t => t.1 == k && p t) = [] := by
  intro data
  induction data with
  | nil => intro _; rfl
  | cons kv rest ih =>
      intro h
      rw [tasks, List.filter_append, ih (fun hk => h (by simp [hk]))]
      have hkk : kv.1 ≠ k := fun he => h (by simp [he])
      rw [List.filter_eq_nil_iff.mpr (fun t ht => ?_), List.nil_append]
      rcases List.mem_map.mp ht with ⟨x, _, rfl⟩
      simp [hkk]

/-- With distinct group keys, the tasks of key `k` are exactly the tasks of
the group holding `k`, in input order. -/
lemma tasks_filter_key (p : Group × PdbId → Bool) (k : Group) (v : List PdbId) :
    ∀ data : Mapping, (data.map (fun kv => kv.1)).Nodup → (k, v) ∈ data →
      (tasks data).filter (fun t => t.1 == k && p t)
        = (v.map (fun x => (k, x))).filter p := by
  intro data
  induction data with
  | nil => intro _ h; exact absurd h (List.not_mem_nil _)
  | cons kv rest ih =>
      intro hnd hmem
      have hnd2 : (rest.map (fun kv => kv.1)).Nodup := (List.nodup_cons.mp (by simpa using hnd)).2
      have hnotin : kv.1 ∉ rest.map (fun kv => kv.1) := (List.nodup_cons.mp (by simpa using hnd)).1
      rw [tasks, List.filter_append]
      rcases List.mem_cons.mp hmem with heq | hmem2
      · have hk : kv.1 = k := by rw [← heq]
        have hv : kv.2 = v := by rw [← heq]
        rw [tasks_filter_not_key p k rest (by rw [← hk]; exact hnotin), List.append_nil]
        rw [hk, hv]
        refine List.filter_congr (fun t ht => ?_)
        rcases List.mem_map.mp ht with ⟨x, _, rfl⟩
        simp
      · have hkk : kv.1 ≠ k := by
          intro he
          exact hnotin (by rw [he]; exact List.mem_map.mpr ⟨(k, v), hmem2, rfl⟩)
        rw [ih hnd2 hmem2, List.filter_eq_nil_iff.mpr (fun t ht => ?_), List.nil_append]
        rcases List.mem_map.mp ht with ⟨x, _, rfl⟩
        simp [hkk]

/-- Sequential mode, before pruning: the `complete` mapping is exactly the
order-preserving selection of each group's identifiers classified
`Complete`. -/
lemma run_groups_complete (dl : Capability) (data : Mapping)
    (hnd : (data.map (fun kv => kv.1)).Nodup) :
    (run_groups dl data (initState data)).complete = categoryOf dl data Outcome.complete := by
  rw [run_groups_eq_foldl_tasks, foldl_tasks_complete, foldl_condAppend]
  show (data.map (fun kv => (kv.1, ([] : List PdbId)))).map _ = _
  rw [List.map_map]
  refine List.map_congr_left (fun kv hkv => ?_)
  simp only [Function.comp]
  rw [List.nil_append, tasks_filter_key (catP dl Outcome.complete) kv.1 kv.2 data hnd hkv,
    List.filter_map, List.map_map]
  simp [catP, Function.comp]
  exact List.filter_congr (fun x _ => rfl)

/-- Sequential mode, before pruning: the `incomplete` mapping selects the
identifiers classified `Incomplete`, in input order. -/
lemma run_groups_incomplete (dl : Capability) (data : Mapping)
    (hnd : (data.map (fun kv => kv.1)).Nodup) :
    (run_groups dl data (initState data)).incomplete = categoryOf dl data Outcome.incomplete := by
  rw [run_groups_eq_foldl_tasks, foldl_tasks_incomplete, foldl_condAppend]
  show (data.map (fun kv => (kv.1, ([] : List PdbId)))).map _ = _
  rw [List.map_map]
  refine List.map_congr_left (fun kv hkv => ?_)
  simp only [Function.comp]
  rw [List.nil_append, tasks_filter_key (catP dl Outcome.incomplete) kv.1 kv.2 data hnd hkv,
    List.filter_map, List.map_map]
  simp [catP, Function.comp]
  exact List.filter_congr (fun x _ => rfl)

/-- Sequential mode, before pruning: the `not_downloadable` mapping selects
the identifiers classified `NotRetrievable`, in input order. -/
lemma run_groups_not_downloadable (dl : Capability) (data : Mapping)
    (hnd : (data.map (fun kv => kv.1)).Nodup) :
    (run_groups dl data (initState data)).not_downloadable
      = categoryOf dl data Outcome.not_retrievable := by
  rw [run_groups_eq_foldl_tasks, foldl_tasks_not_downloadable, foldl_condAppend]
  show (data.map (fun kv => (kv.1, ([] : List PdbId)))).map _ = _
  rw [List.map_map]
  refine List.map_congr_left (fun kv hkv => ?_)
  simp only [Function.comp]
  rw [List.nil_append, tasks_filter_key (catP dl Outcome.not_retrievable) kv.1 kv.2 data hnd hkv,
    List.filter_map, List.map_map]
  simp [catP, Function.comp]
  exact List.filter_congr (fun x _ => rfl)

/-- The `complete` component of the parallel task fold accumulates the tasks
classified `Complete`, in completion order. -/
lemma foldl_par_complete (dl : Capability) (ts : List (Group × PdbId)) :
    ∀ s : ParState,
      ((ts.foldl (fun s t => process_pdb dl t.1 t.2 s) s).complete)
        = ts.foldl (fun m t => if catP dl Outcome.complete t then appendAt m t.1 t.2 else m)
            s.complete := by
  induction ts with
  | nil => intro s; rfl
  | cons t ts ih =>
      intro s
      rw [List.foldl_cons, List.foldl_cons, ih]
      congr 1
      cases h : dl t.2 with
      | ok b => cases b <;> simp [process_pdb, h, catP, outcomeOf]
      | error e => simp [process_pdb, h, catP, outcomeOf]

/-- The `incomplete` component of the parallel task fold. -/
lemma foldl_par_incomplete (dl : Capability) (ts : List (Group × PdbId)) :
    ∀ s : ParState,
      ((ts.foldl (fun s t => process_pdb dl t.1 t.2 s) s).incomplete)
        = ts.foldl (fun m t => if catP dl Outcome.incomplete t then appendAt m t.1 t.2 else m)
            s.incomplete := by
  induction ts with
  | nil => intro s; rfl
  | cons t ts ih =>
      intro s
      rw [List.foldl_cons, List.foldl_cons, ih]
      congr 1
      cases h : dl t.2 with
      | ok b => cases b <;> simp [process_pdb, h, catP, outcomeOf]
      | error e => simp [process_pdb, h, catP, outcomeOf]

/-- The `not_downloadable` component of the parallel task fold. -/
lemma foldl_par_not_downloadable (dl : Capability) (ts : List (Group × PdbId)) :
    ∀ s : ParState,
      ((ts.foldl (fun s t => process_pdb dl t.1 t.2 s) s).not_downloadable)
        = ts.foldl
            (fun m t => if catP dl Outcome.not_retrievable t then appendAt m t.1 t.2 else m)
            s.not_downloadable := by
  induction ts with
  | nil => intro s; rfl
  | cons t ts ih =>
      intro s
      rw [List.foldl_cons, List.foldl_cons, ih]
      congr 1
      cases h : dl t.2 with
      | ok b => cases b <;> simp [process_pdb, h, catP, outcomeOf]
      | error e => simp [process_pdb, h, catP, outcomeOf]

/-- Parallel mode, before pruning: each group's `complete` entry holds the
second components of the `Complete`-classified tasks of its key, in
completion order. -/
lemma parallel_run_complete (dl : Capability) (data : Mapping) (sched : List (Group × PdbId)) :
    (parallel_run dl data sched).complete
      = data.map (fun kv =>
          (kv.1,
            (sched.filter (fun t => t.1 == kv.1 && catP dl Outcome.complete t)).map
              (fun t => t.2))) := by
  show ((sched.foldl (fun s t => process_pdb dl t.1 t.2 s) _).complete) = _
  rw [foldl_par_complete, foldl_condAppend]
  show (data.map (fun kv => (kv.1, ([] : List PdbId)))).map _ = _
  rw [List.map_map]
  exact List.map_congr_left (fun kv _ => by simp)

/-- Parallel mode, before pruning: the `incomplete` entries. -/
lemma parallel_run_incomplete (dl : Capability) (data : Mapping) (sched : List (Group × PdbId)) :
    (parallel_run dl data sched).incomplete
      = data.map (fun kv =>
          (kv.1,
            (sched.filter (fun t => t.1 == kv.1 && catP dl Outcome.incomplete t)).map
              (fun t => t.2))) := by
  show ((sched.foldl (fun s t => process_pdb dl t.1 t.2 s) _).incomplete) = _
  rw [foldl_par_incomplete, foldl_condAppend]
  show (data.map (fun kv => (kv.1, ([] : List PdbId)))).map _ = _
  rw [List.map_map]
  exact List.map_congr_left (fun kv _ => by simp)

/-- Parallel mode, before pruning: the `not_downloadable` entries. -/
lemma parallel_run_not_downloadable (dl : Capability) (data : Mapping)
    (sched : List (Group × PdbId)) :
    (parallel_run dl data sched).not_downloadable
      = data.map (fun kv =>
          (kv.1,
            (sched.filter (fun t => t.1 == kv.1 && catP dl Outcome.not_retrievable t)).map
              (fun t => t.2))) := by
  show ((sched.foldl (fun s t => process_pdb dl t.1 t.2 s) _).not_downloadable) = _
  rw [foldl_par_not_downloadable, foldl_condAppend]
  show (data.map (fun kv => (kv.1, ([] : List PdbId)))).map _ = _
  rw [List.map_map]
  exact List.map_congr_left (fun kv _ => by simp)

/-- Looking up key `k` in a per-entry transformed mapping, when `k` holds `v`
in the underlying mapping and keys are distinct. -/
lemma entryOf_map_of_mem (g : Group × List PdbId → List PdbId) (k : Group) (v : List PdbId) :
    ∀ data : Mapping, (data.map (fun kv => kv.1)).Nodup → (k, v) ∈ data →
      entryOf (data.map (fun kv => (kv.1, g kv))) k = g (k, v) := by
  intro data
  induction data with
  | nil => intro _ h; exact absurd h (List.not_mem_nil _)
  | cons kv rest ih =>
      intro hnd hmem
      have hnotin : kv.1 ∉ rest.map (fun kv => kv.1) := (List.nodup_cons.mp (by simpa using hnd)).1
      have hnd2 : (rest.map (fun kv => kv.1)).Nodup := (List.nodup_cons.mp (by simpa using hnd)).2
      rcases List.mem_cons.mp hmem with heq | hmem2
      · have hk : kv.1 = k := by rw [← heq]
        have : kv = (k, v) := heq.symm ▸ rfl
        subst this
        simp [entryOf, List.find?]
      · have hkk : kv.1 ≠ k := by
          intro he
          exact hnotin (by rw [he]; exact List.mem_map.mpr ⟨(k, v), hmem2, rfl⟩)
        have hstep :
            ((kv :: rest).map (fun kv => (kv.1, g kv))).find? (fun kv => kv.1 == k)
              = (rest.map (fun kv => (kv.1, g kv))).find? (fun kv => kv.1 == k) := by
          rw [List.map_cons]
          exact List.find?_cons_of_neg _ (by simp [hkk])
        rw [entryOf, hstep]
        exact ih hnd2 hmem2

/-- Counting an identifier in the per-key, per-category selection of a task
list. -/
lemma count_map_snd_filter (k : Group) (x : PdbId) (q : Group × PdbId → Bool) :
    ∀ sched : List (Group × PdbId),
      ((sched.filter (fun t => t.1 == k && q t)).map (fun t => t.2)).count x
        = sched.countP (fun t => (t.1 == k && q t) && t.2 == x) := by
  intro sched
  induction sched with
  | nil => rfl
  | cons t ts ih =>
      rw [List.filter_cons, List.countP_cons]
      cases hkq : (t.1 == k && q t) with
      | true =>
          simp only [hkq, if_true, List.map_cons, List.count_cons, ih, Bool.true_and]
      | false =>
          simp only [hkq, Bool.false_eq_true, if_false, ih, Bool.false_and]
          omega

/-- The three category predicates partition the tasks of one key and
identifier. -/
lemma countP_cat_partition (dl : Capability) (k : Group) (x : PdbId) :
    ∀ sched : List (Group × PdbId),
      sched.countP (fun t => (t.1 == k && catP dl Outcome.complete t) && t.2 == x)
        + sched.countP (fun t => (t.1 == k && catP dl Outcome.incomplete t) && t.2 == x)
        + sched.countP (fun t => (t.1 == k && catP dl Outcome.not_retrievable t) && t.2 == x)
        = sched.countP (fun t => t.1 == k && t.2 == x) := by
  intro sched
  simp only [catP]
  induction sched with
  | nil => rfl
  | cons t ts ih =>
      simp only [List.countP_cons]
      cases ho : outcomeOf dl t.2 <;> cases hk : (t.1 == k) <;> cases hx : (t.2 == x) <;>
        simp [ho, hk, hx] <;> omega

/-- With distinct keys, the tasks of key `k` carrying identifier `x` are as
many as the occurrences of `x` in the group holding `k`. -/
lemma countP_tasks_key (k : Group) (v : List PdbId) (x : PdbId) (data : Mapping)
    (hnd : (data.map (fun kv => kv.1)).Nodup) (hmem : (k, v) ∈ data) :
    (tasks data).countP (fun t => t.1 == k && t.2 == x) = v.count x := by
  rw [List.countP_eq_length_filter,
    tasks_filter_key (fun t => t.2 == x) k v data hnd hmem,
    ← List.countP_eq_length_filter, List.countP_map, List.count_eq_countP]
  exact List.countP_congr (fun y _ => by simp)

/-- Pruning never leaves an entry with an empty value list. -/
lemma prune_no_empty (m : Mapping) : ∀ kv ∈ prune m, kv.2 ≠ [] := by
  intro kv h
  have := (List.mem_filter.mp h).2
  simpa using this

/-- With distinct keys, the value bound to a key is unique. -/
lemma eq_of_mem_of_nodup_keys (k : Group) (a b : List PdbId) :
    ∀ m : Mapping, (m.map (fun kv => kv.1)).Nodup →
      (k, a) ∈ m → (k, b) ∈ m → a = b := by
  intro m
  induction m with
  | nil => intro _ h; exact absurd h (List.not_mem_nil _)
  | cons kv rest ih =>
      intro hnd ha hb
      have hnotin : kv.1 ∉ rest.map (fun kv => kv.1) := (List.nodup_cons.mp (by simpa using hnd)).1
      have hnd2 : (rest.map (fun kv => kv.1)).Nodup := (List.nodup_cons.mp (by simpa using hnd)).2
      rcases List.mem_cons.mp ha with ha1 | ha2 <;> rcases List.mem_cons.mp hb with hb1 | hb2
      · rw [← ha1] at hb1; exact (Prod.mk.injEq _ _ _ _ ▸ hb1.symm).2.symm ▸ rfl
      · exact absurd (by rw [← ha1]; exact List.mem_map.mpr ⟨(k, b), hb2, rfl⟩) hnotin
      · exact absurd (by rw [← hb1]; exact List.mem_map.mpr ⟨(k, a), ha2, rfl⟩) hnotin
      · exact ih hnd2 ha2 hb2

/-- A key whose entry is empty is dropped from the pruned mapping. -/
lemma prune_key_absent (m : Mapping) (k : Group) (hnd : (m.map (fun kv => kv.1)).Nodup)
    (hmem : (k, []) ∈ m) : k ∉ (prune m).map (fun kv => kv.1) := by
  intro hk
  rcases List.mem_map.mp hk with ⟨kv, hkv, hkeq⟩
  have h1 : kv ∈ m := (List.mem_filter.mp hkv).1
  have h2 : kv.2 ≠ [] := prune_no_empty m kv hkv
  have : kv.2 = [] := by
    have hkv2 : (k, kv.2) ∈ m := by
      have : kv = (kv.1, kv.2) := rfl
      rw [← hkeq]; exact this ▸ h1
    exact (eq_of_mem_of_nodup_keys k kv.2 [] m hnd hkv2 hmem)
  exact h2 this

/-- Occurrence counts are partitioned by the three outcome filters. -/
lemma count_filter_outcome_partition (dl : Capability) (x : PdbId) (v : List PdbId) :
    (v.filter (fun y => outcomeOf dl y == Outcome.complete)).count x
      + (v.filter (fun y => outcomeOf dl y == Outcome.incomplete)).count x
      + (v.filter (fun y => outcomeOf dl y == Outcome.not_retrievable)).count x
      = v.count x := by
  induction v with
  | nil => rfl
  | cons y v ih =>
      by_cases hy : y = x
      · subst hy
        have h0 : ∀ cat : Outcome, outcomeOf dl y ≠ cat →
            (v.filter (fun z => outcomeOf dl z == cat)).count y = 0 := by
          intro cat hcat
          refine List.count_eq_zero.mpr (fun hmem => ?_)
          have h2 := (List.mem_filter.mp hmem).2
          exact hcat (by simpa using h2)
        cases ho : outcomeOf dl y with
        | complete =>
            have hA := h0 Outcome.incomplete (by simp [ho])
            have hB := h0 Outcome.not_retrievable (by simp [ho])
            simp [List.filter_cons, ho, List.count_cons, hA, hB] at ih ⊢
        | incomplete =>
            have hA := h0 Outcome.complete (by simp [ho])
            have hB := h0 Outcome.not_retrievable (by simp [ho])
            simp [List.filter_cons, ho, List.count_cons, hA, hB] at ih ⊢
        | not_retrievable =>
            have hA := h0 Outcome.complete (by simp [ho])
            have hB := h0 Outcome.incomplete (by simp [ho])
            simp [List.filter_cons, ho, List.count_cons, hA, hB] at ih ⊢
      · cases ho : outcomeOf dl y <;> simp [List.filter_cons, ho, List.count_cons, hy] <;> omega

/-- With a nonzero total, the analysis returns the three percentages, each
the rounded product by 100 of the rounded quotient by the total. -/
lemma verbose_analysis_ok (c i n : Mapping) (N : Nat) (hN : N ≠ 0) :
    verbose_analysis c i n N
      = Except.ok (pymul (roundB64 ((mappingTotal c : Rat) / (N : Rat))) 100,
          pymul (roundB64 ((mappingTotal i : Rat) / (N : Rat))) 100,
          pymul (roundB64 ((mappingTotal n : Rat) / (N : Rat))) 100) := by
  have hq : (N : Rat) ≠ 0 := Nat.cast_ne_zero.mpr hN
  simp [verbose_analysis, pydiv, hq]
  rfl

/-- With a zero total, the analysis raises at the first division. -/
lemma verbose_analysis_err (c i n : Mapping) :
    verbose_analysis c i n 0 = Except.error () := by
  simp [verbose_analysis, pydiv]
  rfl

/-- A heap of Python list objects, addressed by index. -/
abbrev Heap := List (List PdbId)

/-- Read the list object at reference `r` (`[]` for a dangling reference). -/
def hget (h : Heap) (r : Nat) : List PdbId :=
  h.getD r []

/-- Replace the list object at reference `r`. -/
def hset (h : Heap) (r : Nat) (v : List PdbId) : Heap :=
  h.set r v

/-- `obj.append(x)` on the list object at reference `r`. -/
def hpush (h : Heap) (r : Nat) (x : PdbId) : Heap :=
  hset h r (hget h r ++ [x])

/-- Allocate a fresh empty list object; returns the extended heap and the
new reference. -/
def allocEmpty (h : Heap) : Heap × Nat :=
  (h ++ [[]], h.length)

/-- `{k: [] for k in keys}`: allocate one fresh empty list per key. -/
def allocMapping (h : Heap) : List Group → Heap × List (Group × Nat)
  | [] => (h, [])
  | k :: ks =>
      let p := allocEmpty h
      let rest := allocMapping p.1 ks
      (rest.1, (k, p.2) :: rest.2)

/-- Reference lookup `m[k]` in a dictionary of list references. -/
def refOf (m : List (Group × Nat)) (k : Group) : Option Nat :=
  (m.find? (fun kv => kv.1 == k)).map (fun kv => kv.2)

/-- `m[k].append(x)`: push through the reference bound to `k` (no-op when
the key is absent, which the script never hits). -/
def hpushAt (h : Heap) (m : List (Group × Nat)) (k : Group) (x : PdbId) : Heap :=
  match refOf m k with
  | some r => hpush h r x
  | none => h

/-- The three category dictionaries, as reference tables into the heap. -/
structure HeapMaps where
  complete : List (Group × Nat)
  incomplete : List (Group × Nat)
  not_downloadable : List (Group × Nat)

/-- One classification with its append, through references: the loop body of
`classify_pdb_batch` and the task body `process_pdb`, which perform the same
heap effects. -/
def process_one_heap (dl : Capability) (maps : HeapMaps) (k : Group) (pdbId : PdbId)
    (h : Heap) : Heap :=
  match dl pdbId with
  | Except.ok true => hpushAt h maps.complete k pdbId
  | Except.ok false => hpushAt h maps.incomplete k pdbId
  | Except.error _ => hpushAt h maps.not_downloadable k pdbId

/-- The nested loops of `classify_pdb_batch`, reading each group's
identifier list from the caller's heap. -/
def run_groups_heap (dl : Capability) (maps : HeapMaps) (dataRefs : List (Group × Nat))
    (h : Heap) : Heap :=
  dataRefs.foldl
    (fun h kr => (hget h kr.2).foldl (fun h pdbId => process_one_heap dl maps kr.1 pdbId h) h) h

/-- `classify_pdb_batch` over the heap: allocate the three fresh
dictionaries, then run the loops. -/
def classify_pdb_batch_heap (dl : Capability) (dataRefs : List (Group × Nat)) (h : Heap) :
    Heap × HeapMaps :=
  let pC := allocMapping h (dataRefs.map (fun kr => kr.1))
  let pI := allocMapping pC.1 (dataRefs.map (fun kr => kr.1))
  let pN := allocMapping pI.1 (dataRefs.map (fun kr => kr.1))
  let maps := HeapMaps.mk pC.2 pI.2 pN.2
  (run_groups_heap dl maps dataRefs pN.1, maps)

/-- The pool execution of `parallel_classify_pdb_batch` over the heap: all
tasks run in completion order `sched`, each appending through the shared
dictionaries. -/
def parallel_run_heap (dl : Capability) (maps : HeapMaps) (sched : List (Group × PdbId))
    (h : Heap) : Heap :=
  sched.foldl (fun h t => process_one_heap dl maps t.1 t.2 h) h

/-- `parallel_classify_pdb_batch` over the heap. -/
def parallel_classify_pdb_batch_heap (dl : Capability) (dataRefs : List (Group × Nat))
    (sched : List (Group × PdbId)) (h : Heap) : Heap × HeapMaps :=
  let pC := allocMapping h (dataRefs.map (fun kr => kr.1))
  let pI := allocMapping pC.1 (dataRefs.map (fun kr => kr.1))
  let pN := allocMapping pI.1 (dataRefs.map (fun kr => kr.1))
  let maps := HeapMaps.mk pC.2 pI.2 pN.2
  (parallel_run_heap dl maps sched pN.1, maps)

/-- All references of all three dictionaries point at or above `n`. -/
def MapsGe (n : Nat) (maps : HeapMaps) : Prop :=
  (∀ kr ∈ maps.complete, n ≤ kr.2)
    ∧ (∀ kr ∈ maps.incomplete, n ≤ kr.2)
    ∧ (∀ kr ∈ maps.not_downloadable, n ≤ kr.2)

lemma hget_hset_ne (h : Heap) (r i : Nat) (v : List PdbId) (hne : i ≠ r) :
    hget (hset h r v) i = hget h i := by
  unfold hget hset
  rw [List.getD_eq_getElem?_getD, List.getD_eq_getElem?_getD, List.getElem?_set_ne (Ne.symm hne)]

lemma allocMapping_heap (keys : List Group) :
    ∀ h : Heap, (allocMapping h keys).1 = h ++ List.replicate keys.length [] := by
  induction keys with
  | nil => intro h; simp [allocMapping]
  | cons k ks ih =>
      intro h
      rw [allocMapping]
      show (allocMapping (h ++ [[]]) ks).1 = _
      rw [ih]
      simp [List.replicate_succ]

lemma allocMapping_refs_ge (keys : List Group) :
    ∀ h : Heap, ∀ kr ∈ (allocMapping h keys).2, h.length ≤ kr.2 := by
  induction keys with
  | nil => intro h kr hm; exact absurd hm (List.not_mem_nil _)
  | cons k ks ih =>
      intro h kr hm
      rcases List.mem_cons.mp hm with he | hm2
      · rw [he]
        exact Nat.le.refl
      · have := ih (h ++ [[]]) kr hm2
        simp at this
        omega

lemma hget_append_lt (h ext : Heap) (i : Nat) (hi : i < h.length) :
    hget (h ++ ext) i = hget h i := by
  unfold hget
  rw [List.getD_eq_getElem?_getD, List.getD_eq_getElem?_getD, List.getElem?_append_left hi]

lemma hpushAt_preserve (m : List (Group × Nat)) (k : Group) (x : PdbId) (h : Heap)
    (n i : Nat) (hm : ∀ kr ∈ m, n ≤ kr.2) (hi : i < n) :
    hget (hpushAt h m k x) i = hget h i := by
  unfold hpushAt
  cases hr : refOf m k with
  | none => rfl
  | some r =>
      have hmem : n ≤ r := by
        unfold refOf at hr
        cases hf : m.find? (fun kv => kv.1 == k) with
        | none => rw [hf] at hr; exact absurd hr (by simp)
        | some kv =>
            rw [hf] at hr
            have h1 : kv.2 = r := by simpa using hr
            have h2 := hm kv (List.mem_of_find?_eq_some hf)
            omega
      exact hget_hset_ne h r i _ (by omega)

lemma process_one_heap_preserve (dl : Capability) (maps : HeapMaps) (k : Group) (x : PdbId)
    (h : Heap) (n i : Nat) (hm : MapsGe n maps) (hi : i < n) :
    hget (process_one_heap dl maps k x h) i = hget h i := by
  cases hdl : dl x with
  | ok b =>
      cases b <;> simp only [process_one_heap, hdl] <;>
        [exact hpushAt_preserve _ k x h n i hm.2.1 hi;
         exact hpushAt_preserve _ k x h n i hm.1 hi]
  | error e =>
      simp only [process_one_heap, hdl]
      exact hpushAt_preserve _ k x h n i hm.2.2 hi

lemma foldl_heap_preserve (dl : Capability) (maps : HeapMaps) (k : Group)
    (ids : List PdbId) (n i : Nat) (hm : MapsGe n maps) (hi : i < n) :
    ∀ h : Heap, hget (ids.foldl (fun h pdbId => process_one_heap dl maps k pdbId h) h) i
      = hget h i := by
  induction ids with
  | nil => intro h; rfl
  | cons x ids ih =>
      intro h
      rw [List.foldl_cons, ih]
      exact process_one_heap_preserve dl maps k x h n i hm hi

lemma run_groups_heap_preserve (dl : Capability) (maps : HeapMaps)
    (dataRefs : List (Group × Nat)) (n i : Nat) (hm : MapsGe n maps) (hi : i < n) :
    ∀ h : Heap, hget (run_groups_heap dl maps dataRefs h) i = hget h i := by
  induction dataRefs with
  | nil => intro h; rfl
  | cons kr rest ih =>
      intro h
      show hget (run_groups_heap dl maps rest _) i = _
      rw [ih, foldl_heap_preserve dl maps kr.1 (hget h kr.2) n i hm hi]

lemma sched_heap_preserve (dl : Capability) (maps : HeapMaps)
    (sched : List (Group × PdbId)) (n i : Nat) (hm : MapsGe n maps) (hi : i < n) :
    ∀ h : Heap, hget (parallel_run_heap dl maps sched h) i = hget h i := by
  induction sched with
  | nil => intro h; rfl
  | cons t ts ih =>
      intro h
      show hget (parallel_run_heap dl maps ts _) i = _
      rw [ih]
      exact process_one_heap_preserve dl maps t.1 t.2 h n i hm hi

/-- The dictionaries allocated by either batch run only reference fresh
cells, and the pre-run heap is reachable unchanged under the allocations. -/
lemma batch_alloc_facts (dataRefs : List (Group × Nat)) (h : Heap) :
    ∀ i < h.length,
      MapsGe h.length
          (HeapMaps.mk (allocMapping h (dataRefs.map (fun kr => kr.1))).2
            (allocMapping (allocMapping h (dataRefs.map (fun kr => kr.1))).1
              (dataRefs.map (fun kr => kr.1))).2
            (allocMapping
              (allocMapping (allocMapping h (dataRefs.map (fun kr => kr.1))).1
                (dataRefs.map (fun kr => kr.1))).1
              (dataRefs.map (fun kr => kr.1))).2)
        ∧ hget (allocMapping
            (allocMapping (allocMapping h (dataRefs.map (fun kr => kr.1))).1
              (dataRefs.map (fun kr => kr.1))).1
            (dataRefs.map (fun kr => kr.1))).1 i = hget h i := by
  intro i hi
  have e1 := allocMapping_heap (dataRefs.map (fun kr => kr.1)) h
  have e2 := allocMapping_heap (dataRefs.map (fun kr => kr.1))
    (allocMapping h (dataRefs.map (fun kr => kr.1))).1
  have e3 := allocMapping_heap (dataRefs.map (fun kr => kr.1))
    (allocMapping (allocMapping h (dataRefs.map (fun kr => kr.1))).1
      (dataRefs.map (fun kr => kr.1))).1
  refine ⟨⟨fun kr hm => allocMapping_refs_ge _ h kr hm, fun kr hm => ?_, fun kr hm => ?_⟩, ?_⟩
  · have := allocMapping_refs_ge _ _ kr hm
    rw [e1] at this
    simp at this
    omega
  · have := allocMapping_refs_ge _ _ kr hm
    rw [e2, e1] at this
    simp at this
    omega
  · rw [e3, e2, e1, List.append_assoc, List.append_assoc]
    exact hget_append_lt h _ i hi

/-- Sequential runs process every identifier: the final counter equals the
input total, whatever the capability does. -/
lemma run_groups_count (dl : Capability) (data : Mapping) :
    (run_groups dl data (initState data)).count = totalIds data := by
  rw [run_groups_eq_foldl_tasks]
  have := foldl_tasks_count dl (tasks data) (initState data)
  rw [this]
  simp [initState, tasks_length]

/-- The checkpoint count over the whole sequential run. -/
lemma run_groups_saves_length (dl : Capability) (data : Mapping) :
    (run_groups dl data (initState data)).saves.length = dueSaves dl 0 (tasks data) := by
  rw [run_groups_eq_foldl_tasks]
  have := foldl_tasks_saves_length dl (tasks data) (initState data)
  rw [this]
  simp [initState]

/-- Over 25 tasks whose 10th and 20th are retrievable, exactly two
checkpoint writes occur. -/
lemma dueSaves_25 (dl : Capability) (ts : List (Group × PdbId)) (hL : ts.length = 25)
    (h10 : outcomeOf dl (ts.getD 9 ("", "")).2 ≠ Outcome.not_retrievable)
    (h20 : outcomeOf dl (ts.getD 19 ("", "")).2 ≠ Outcome.not_retrievable) :
    dueSaves dl 0 ts = 2 := by
  have h9lt : 9 < ts.length := by omega
  have h19lt : 19 < ts.length := by omega
  have e1 : ts = ts.take 9 ++ ts.drop 9 := (List.take_append_drop 9 ts).symm
  have hlen9 : (ts.take 9).length = 9 := by rw [List.length_take]; omega
  have e2 : ts.drop 9 = ts.get ⟨9, h9lt⟩ :: ts.drop 10 := by
    rw [List.drop_eq_getElem_cons h9lt]
    rfl
  have e3 : ts.drop 10 = (ts.drop 10).take 9 ++ (ts.drop 10).drop 9 :=
    (List.take_append_drop 9 (ts.drop 10)).symm
  have hlen10 : ((ts.drop 10).take 9).length = 9 := by
    rw [List.length_take, List.length_drop]; omega
  have e4 : (ts.drop 10).drop 9 = ts.drop 19 := by
    rw [List.drop_drop]
  have e5 : ts.drop 19 = ts.get ⟨19, h19lt⟩ :: ts.drop 20 := by
    rw [List.drop_eq_getElem_cons h19lt]
    rfl
  have hget9 : ts.getD 9 ("", "") = ts.get ⟨9, h9lt⟩ := by
    rw [List.getD_eq_getElem ts ("", "") h9lt]
    rfl
  have hget19 : ts.getD 19 ("", "") = ts.get ⟨19, h19lt⟩ := by
    rw [List.getD_eq_getElem ts ("", "") h19lt]
    rfl
  rw [hget9] at h10
  rw [hget19] at h20
  have hz1 : dueSaves dl 0 (ts.take 9) = 0 := by
    refine dueSaves_eq_zero dl (ts.take 9) 0 (fun j hj => ?_)
    rw [hlen9] at hj
    omega
  have hz2 : dueSaves dl 10 ((ts.drop 10).take 9) = 0 := by
    refine dueSaves_eq_zero dl ((ts.drop 10).take 9) 10 (fun j hj => ?_)
    rw [hlen10] at hj
    omega
  have hz3 : dueSaves dl 20 (ts.drop 20) = 0 := by
    refine dueSaves_eq_zero dl (ts.drop 20) 20 (fun j hj => ?_)
    rw [List.length_drop] at hj
    omega
  calc dueSaves dl 0 ts
      = dueSaves dl 0 (ts.take 9 ++ ts.drop 9) := by rw [← e1]
    _ = dueSaves dl 0 (ts.take 9) + dueSaves dl (0 + (ts.take 9).length) (ts.drop 9) :=
        dueSaves_append dl _ _ 0
    _ = 0 + dueSaves dl 9 (ts.get ⟨9, h9lt⟩ :: ts.drop 10) := by rw [hz1, hlen9, e2]
    _ = 0 + (1 + dueSaves dl 10 (ts.drop 10)) := by
        rw [dueSaves]
        rw [if_pos ⟨by omega, h10⟩]
    _ = 1 + dueSaves dl 10 ((ts.drop 10).take 9 ++ (ts.drop 10).drop 9) := by rw [← e3]; omega
    _ = 1 + (dueSaves dl 10 ((ts.drop 10).take 9)
          + dueSaves dl (10 + ((ts.drop 10).take 9).length) ((ts.drop 10).drop 9)) := by
        rw [dueSaves_append dl _ _ 10]
    _ = 1 + (0 + dueSaves dl 19 (ts.get ⟨19, h19lt⟩ :: ts.drop 20)) := by
        rw [hz2, hlen10, e4, e5]
    _ = 1 + (0 + (1 + dueSaves dl 20 (ts.drop 20))) := by
        rw [dueSaves]
        rw [if_pos ⟨by omega, h20⟩]
    _ = 2 := by rw [hz3]

/-- Classification keeps the input's group keys. -/
lemma categoryOf_keys (dl : Capability) (data : Mapping) (cat : Outcome) :
    (categoryOf dl data cat).map (fun kv => kv.1) = data.map (fun kv => kv.1) := by
  simp [categoryOf]

/-- Unfolding of the verbose sequential run: prune, write, then report. -/
lemma classify_pdb_batch_true (dl : Capability) (data : Mapping) :
    classify_pdb_batch dl data true
      = (match verbose_analysis (prune (run_groups dl data (initState data)).complete)
            (prune (run_groups dl data (initState data)).incomplete)
            (prune (run_groups dl data (initState data)).not_downloadable)
            (totalIds data) with
        | Except.error e => Except.error e
        | Except.ok qs =>
            Except.ok (BatchResult.mk
              (prune (run_groups dl data (initState data)).complete)
              (prune (run_groups dl data (initState data)).incomplete)
              (prune (run_groups dl data (initState data)).not_downloadable)
              (totalIds data)
              ((run_groups dl data (initState data)).saves
                ++ [Snapshot.mk (prune (run_groups dl data (initState data)).complete)
                      (prune (run_groups dl data (initState data)).incomplete)
                      (prune (run_groups dl data (initState data)).not_downloadable)])
              (some qs))) := rfl

/-! ### Concrete fixtures for witnesses and counterexamples -/

/-- The spec scenario input collection: two identifiers under group A, one
under group B. -/
def data0 : Mapping := [("A", ["x1", "x2"]), ("B", ["y1"])]

/-- The spec scenario capability: x1 downloads complete, x2 downloads but is
incomplete, y1 raises. -/
def dl0 : Capability := fun pdbId =>
  if pdbId = "x1" then Except.ok true
  else if pdbId = "x2" then Except.ok false
  else Except.error ()

/-- Ten identifiers in one group. -/
def dataC3 : Mapping :=
  [("A", ["p01", "p02", "p03", "p04", "p05", "p06", "p07", "p08", "p09", "p10"])]

/-- A capability for which every download raises. -/
def dlErr : Capability := fun _ => Except.error ()

/-- Twenty-five identifiers in one group. -/
def dataC8 : Mapping :=
  [("A", ["q01", "q02", "q03", "q04", "q05", "q06", "q07", "q08", "q09", "q10",
    "q11", "q12", "q13", "q14", "q15", "q16", "q17", "q18", "q19", "q20",
    "q21", "q22", "q23", "q24", "q25"])]

/-- A capability for which every download is complete. -/
def dlOk : Capability := fun _ => Except.ok true

/-- The spec scenario input as heap cells. -/
def heap0 : Heap := [["x1", "x2"], ["y1"]]

/-- References of the spec scenario input into `heap0`. -/
def dataRefs0 : List (Group × Nat) := [("A", 0), ("B", 1)]

/-! ### The claims -/

/-- C1: for every input collection (with the distinct keys of a Python
`dict`) and every deterministic capability, the pre-pruning category
mappings have exactly the input's group keys, and for each input group and
each identifier, the occurrences of the identifier across the group's three
category entries are exactly its occurrences in the input group — no
identifier is lost, duplicated, or invented. This holds for the sequential
run and for the parallel run under every completion order of its tasks. -/
theorem claim_C1 (dl : Capability) (data : Mapping)
    (hnd : (data.map (fun kv => kv.1)).Nodup) :
    ((run_groups dl data (initState data)).complete.map (fun kv => kv.1)
          = data.map (fun kv => kv.1)
        ∧ (run_groups dl data (initState data)).incomplete.map (fun kv => kv.1)
          = data.map (fun kv => kv.1)
        ∧ (run_groups dl data (initState data)).not_downloadable.map (fun kv => kv.1)
          = data.map (fun kv => kv.1))
      ∧ (∀ kv ∈ data, ∀ x : PdbId,
          (entryOf (run_groups dl data (initState data)).complete kv.1).count x
              + (entryOf (run_groups dl data (initState data)).incomplete kv.1).count x
              + (entryOf (run_groups dl data (initState data)).not_downloadable kv.1).count x
            = kv.2.count x)
      ∧ (∀ sched : List (Group × PdbId), sched.Perm (tasks data) →
          ∀ kv ∈ data, ∀ x : PdbId,
            (entryOf (parallel_run dl data sched).complete kv.1).count x
                + (entryOf (parallel_run dl data sched).incomplete kv.1).count x
                + (entryOf (parallel_run dl data sched).not_downloadable kv.1).count x
              = kv.2.count x) := by
  have hc := run_groups_complete dl data hnd
  have hi := run_groups_incomplete dl data hnd
  have hn := run_groups_not_downloadable dl data hnd
  refine ⟨⟨?_, ?_, ?_⟩, ?_, ?_⟩
  · rw [hc]; simp [categoryOf]
  · rw [hi]; simp [categoryOf]
  · rw [hn]; simp [categoryOf]
  · intro kv hkv x
    have hkv2 : (kv.1, kv.2) ∈ data := by simpa using hkv
    rw [hc, hi, hn, categoryOf, categoryOf, categoryOf,
      entryOf_map_of_mem _ kv.1 kv.2 data hnd hkv2,
      entryOf_map_of_mem _ kv.1 kv.2 data hnd hkv2,
      entryOf_map_of_mem _ kv.1 kv.2 data hnd hkv2]
    exact count_filter_outcome_partition dl x kv.2
  · intro sched hperm kv hkv x
    have hkv2 : (kv.1, kv.2) ∈ data := by simpa using hkv
    rw [parallel_run_complete, parallel_run_incomplete, parallel_run_not_downloadable,
      entryOf_map_of_mem _ kv.1 kv.2 data hnd hkv2,
      entryOf_map_of_mem _ kv.1 kv.2 data hnd hkv2,
      entryOf_map_of_mem _ kv.1 kv.2 data hnd hkv2,
      count_map_snd_filter, count_map_snd_filter, count_map_snd_filter,
      hperm.countP_eq, hperm.countP_eq, hperm.countP_eq,
      countP_cat_partition dl kv.1 x (tasks data)]
    exact countP_tasks_key kv.1 kv.2 x data hnd hkv2

/-- Witness for C1: at the spec scenario input, the occurrences of x1 under
group A across the three mappings match its occurrences in the input. -/
theorem claim_C1_witness :
    (entryOf (run_groups dl0 data0 (initState data0)).complete "A").count "x1"
        + (entryOf (run_groups dl0 data0 (initState data0)).incomplete "A").count "x1"
        + (entryOf (run_groups dl0 data0 (initState data0)).not_downloadable "A").count "x1"
      = (["x1", "x2"] : List PdbId).count "x1" :=
  (claim_C1 dl0 data0 (by decide)).2.1 ("A", ["x1", "x2"]) (by decide) "x1"

/-- C2: a capability exception is absorbed: the identifier is appended to
the `not_downloadable` entry of its group, the other mappings (and, in
sequential mode, the checkpoint log) are untouched, and the run goes on — in
particular the whole batch still processes every identifier and the batch
functions never propagate the exception. A truthy result appends to
`complete`, a falsy one to `incomplete`. This covers the sequential loop
body and the parallel task body `process_pdb`. -/
theorem claim_C2 (dl : Capability) (data : Mapping) (k : Group) (x : PdbId)
    (s : SeqState) (p : ParState) :
    (dl x = Except.error () →
        (process_one dl k x s).not_downloadable = appendAt s.not_downloadable k x
          ∧ (process_one dl k x s).complete = s.complete
          ∧ (process_one dl k x s).incomplete = s.incomplete
          ∧ (process_one dl k x s).saves = s.saves
          ∧ (process_pdb dl k x p).not_downloadable = appendAt p.not_downloadable k x
          ∧ (process_pdb dl k x p).complete = p.complete
          ∧ (process_pdb dl k x p).incomplete = p.incomplete)
      ∧ (dl x = Except.ok true →
          (process_one dl k x s).complete = appendAt s.complete k x
            ∧ (process_one dl k x s).incomplete = s.incomplete
            ∧ (process_one dl k x s).not_downloadable = s.not_downloadable
            ∧ (process_pdb dl k x p).complete = appendAt p.complete k x
            ∧ (process_pdb dl k x p).incomplete = p.incomplete
            ∧ (process_pdb dl k x p).not_downloadable = p.not_downloadable)
      ∧ (dl x = Except.ok false →
          (process_one dl k x s).incomplete = appendAt s.incomplete k x
            ∧ (process_one dl k x s).complete = s.complete
            ∧ (process_one dl k x s).not_downloadable = s.not_downloadable
            ∧ (process_pdb dl k x p).incomplete = appendAt p.incomplete k x
            ∧ (process_pdb dl k x p).complete = p.complete
            ∧ (process_pdb dl k x p).not_downloadable = p.not_downloadable)
      ∧ (run_groups dl data (initState data)).count = totalIds data
      ∧ (∃ r, classify_pdb_batch dl data false = Except.ok r) := by
  refine ⟨?_, ?_, ?_, run_groups_count dl data, ⟨_, rfl⟩⟩
  · intro h
    refine ⟨?_, ?_, ?_, ?_, ?_, ?_, ?_⟩ <;> simp [process_one, process_pdb, h]
  · intro h
    refine ⟨?_, ?_, ?_, ?_, ?_, ?_⟩ <;>
      simp [process_one, process_pdb, h, checkpointIfDue_complete,
        checkpointIfDue_incomplete, checkpointIfDue_not_downloadable]
  · intro h
    refine ⟨?_, ?_, ?_, ?_, ?_, ?_⟩ <;>
      simp [process_one, process_pdb, h, checkpointIfDue_complete,
        checkpointIfDue_incomplete, checkpointIfDue_not_downloadable]

/-- Witness for C2: y1 raises under the scenario capability and lands in
`not_downloadable` for its group. -/
theorem claim_C2_witness :
    (process_one dl0 "B" "y1" (initState data0)).not_downloadable
      = appendAt (initState data0).not_downloadable "B" "y1" :=
  ((claim_C2 dl0 data0 "B" "y1" (initState data0)
      (ParState.mk (initMapping data0) (initMapping data0) (initMapping data0))).1 rfl).1

/-- C5: in sequential mode, before pruning, each group's entry in each
category mapping is the order-preserving subsequence of the group's input
sequence selected by the classification outcome. -/
theorem claim_C5 (dl : Capability) (data : Mapping)
    (hnd : (data.map (fun kv => kv.1)).Nodup) :
    (run_groups dl data (initState data)).complete = categoryOf dl data Outcome.complete
      ∧ (run_groups dl data (initState data)).incomplete
        = categoryOf dl data Outcome.incomplete
      ∧ (run_groups dl data (initState data)).not_downloadable
        = categoryOf dl data Outcome.not_retrievable :=
  ⟨run_groups_complete dl data hnd, run_groups_incomplete dl data hnd,
    run_groups_not_downloadable dl data hnd⟩

/-- Witness for C5: the scenario run's `complete` mapping is the filtered
input, in input order. -/
theorem claim_C5_witness :
    (run_groups dl0 data0 (initState data0)).complete
      = categoryOf dl0 data0 Outcome.complete :=
  (claim_C5 dl0 data0 (by decide)).1

/-- C3 counterexample: with ten identifiers that all raise, the global
counter reaches 10 — a multiple of the checkpoint interval — at the tenth
identifier, yet the run performs no checkpoint write at all: the identifier
that made the counter a multiple of 10 was classified NotRetrievable and the
`continue` in the `except` branch skips the checkpoint block. This refutes
the claim that a write is triggered at every multiple of 10 regardless of
the outcome. -/
theorem claim_C3_cex :
    (run_groups dlErr dataC3 (initState dataC3)).count = 10
      ∧ (run_groups dlErr dataC3 (initState dataC3)).saves = [] :=
  ⟨rfl, rfl⟩

/-- C3 (amended): sequential mode maintains a global counter across all
groups, and a full checkpoint write of the three mappings is triggered after
an identifier exactly when the incremented counter is a multiple of 10 AND
that identifier was classified Complete or Incomplete; when it was
classified NotRetrievable the `continue` skips the write at that multiple.
The run's total number of checkpoint writes is `dueSaves` over its task
list. -/
theorem claim_C3_amended (dl : Capability) (data : Mapping) :
    (∀ s : SeqState, ∀ t : Group × PdbId,
        (process_one dl t.1 t.2 s).saves.length
          = s.saves.length
            + (if (s.count + 1) % 10 = 0 ∧ outcomeOf dl t.2 ≠ Outcome.not_retrievable
                then 1 else 0))
      ∧ (run_groups dl data (initState data)).saves.length = dueSaves dl 0 (tasks data) :=
  ⟨fun s t => process_one_saves_length dl t.1 t.2 s, run_groups_saves_length dl data⟩

/-- C4: both batch runs deliver, as their final observable outputs, the
three pruned category mappings — the last (final) checkpoint write persists
exactly the delivered mappings — together with the total input identifier
count, the sum of the input group sizes, unaffected by processing or
pruning. -/
theorem claim_C4 (dl : Capability) (data : Mapping) (sched : List (Group × PdbId)) :
    (∃ r, classify_pdb_batch dl data false = Except.ok r
        ∧ r.complete = prune (run_groups dl data (initState data)).complete
        ∧ r.incomplete = prune (run_groups dl data (initState data)).incomplete
        ∧ r.not_downloadable = prune (run_groups dl data (initState data)).not_downloadable
        ∧ r.number_of_pdb_ids = (data.map (fun kv => kv.2.length)).sum
        ∧ r.saves.getLast? = some (Snapshot.mk r.complete r.incomplete r.not_downloadable))
      ∧ (∃ r, parallel_classify_pdb_batch dl data sched false = Except.ok r
        ∧ r.complete = prune (parallel_run dl data sched).complete
        ∧ r.incomplete = prune (parallel_run dl data sched).incomplete
        ∧ r.not_downloadable = prune (parallel_run dl data sched).not_downloadable
        ∧ r.number_of_pdb_ids = (data.map (fun kv => kv.2.length)).sum
        ∧ r.saves = [Snapshot.mk r.complete r.incomplete r.not_downloadable]) := by
  constructor
  · exact ⟨_, rfl, rfl, rfl, rfl, rfl, List.getLast?_concat _⟩
  · exact ⟨_, rfl, rfl, rfl, rfl, rfl, rfl⟩

/-- C6: in the final (returned and persisted) category mappings of both
runs, no group key maps to an empty sequence; a group whose pre-pruning
entry is empty is absent from the corresponding pruned mapping — so a group
with zero entries across all three mappings appears in none of them. -/
theorem claim_C6 (dl : Capability) (data : Mapping) (sched : List (Group × PdbId))
    (hnd : (data.map (fun kv => kv.1)).Nodup) :
    (∀ r, classify_pdb_batch dl data false = Except.ok r →
        (∀ kv ∈ r.complete, kv.2 ≠ [])
          ∧ (∀ kv ∈ r.incomplete, kv.2 ≠ [])
          ∧ (∀ kv ∈ r.not_downloadable, kv.2 ≠ []))
      ∧ (∀ r, parallel_classify_pdb_batch dl data sched false = Except.ok r →
          (∀ kv ∈ r.complete, kv.2 ≠ [])
            ∧ (∀ kv ∈ r.incomplete, kv.2 ≠ [])
            ∧ (∀ kv ∈ r.not_downloadable, kv.2 ≠ []))
      ∧ (∀ k, (k, []) ∈ (run_groups dl data (initState data)).complete →
          k ∉ (prune (run_groups dl data (initState data)).complete).map (fun kv => kv.1))
      ∧ (∀ k, (k, []) ∈ (run_groups dl data (initState data)).incomplete →
          k ∉ (prune (run_groups dl data (initState data)).incomplete).map (fun kv => kv.1))
      ∧ (∀ k, (k, []) ∈ (run_groups dl data (initState data)).not_downloadable →
          k ∉ (prune (run_groups dl data (initState data)).not_downloadable).map
            (fun kv => kv.1))
      ∧ (∀ k, (k, []) ∈ (parallel_run dl data sched).complete →
          k ∉ (prune (parallel_run dl data sched).complete).map (fun kv => kv.1))
      ∧ (∀ k, (k, []) ∈ (parallel_run dl data sched).incomplete →
          k ∉ (prune (parallel_run dl data sched).incomplete).map (fun kv => kv.1))
      ∧ (∀ k, (k, []) ∈ (parallel_run dl data sched).not_downloadable →
          k ∉ (prune (parallel_run dl data sched).not_downloadable).map (fun kv => kv.1)) := by
  refine ⟨?_, ?_, ?_, ?_, ?_, ?_, ?_, ?_⟩
  · intro r hr
    obtain rfl := Except.ok.inj hr
    exact ⟨prune_no_empty _, prune_no_empty _, prune_no_empty _⟩
  · intro r hr
    obtain rfl := Except.ok.inj hr
    exact ⟨prune_no_empty _, prune_no_empty _, prune_no_empty _⟩
  · intro k hk
    refine prune_key_absent _ k ?_ hk
    rw [run_groups_complete dl data hnd, categoryOf_keys]
    exact hnd
  · intro k hk
    refine prune_key_absent _ k ?_ hk
    rw [run_groups_incomplete dl data hnd, categoryOf_keys]
    exact hnd
  · intro k hk
    refine prune_key_absent _ k ?_ hk
    rw [run_groups_not_downloadable dl data hnd, categoryOf_keys]
    exact hnd
  · intro k hk
    refine prune_key_absent _ k ?_ hk
    rw [parallel_run_complete]
    simpa using hnd
  · intro k hk
    refine prune_key_absent _ k ?_ hk
    rw [parallel_run_incomplete]
    simpa using hnd
  · intro k hk
    refine prune_key_absent _ k ?_ hk
    rw [parallel_run_not_downloadable]
    simpa using hnd

/-- Witness for C6: group B, all of whose identifiers raise in the
scenario, has an empty `complete` entry before pruning and is absent from
the pruned `complete` mapping. -/
theorem claim_C6_witness :
    "B" ∉ (prune (run_groups dl0 data0 (initState data0)).complete).map (fun kv => kv.1) :=
  (claim_C6 dl0 data0 [] (by decide)).2.2.1 "B" (by decide)

/-- C8 counterexample: a 25-identifier sequential run whose downloads all
succeed performs exactly 2 intermediate checkpoint writes before the final
one (after items 10 and 20), not 3 as claimed. -/
theorem claim_C8_cex :
    totalIds dataC8 = 25
      ∧ (run_groups dlOk dataC8 (initState dataC8)).saves.length = 2 :=
  ⟨rfl, rfl⟩

/-- C8 (amended): in sequential mode with checkpoint interval 10 and 25
input identifiers, provided the identifiers that bring the counter to 10
and to 20 are classified Complete or Incomplete, exactly 2 intermediate
checkpoint writes occur (after the 10th and 20th items); together with the
final write after the 25th item the run performs 3 writes in total. -/
theorem claim_C8_amended (dl : Capability) (data : Mapping)
    (h25 : totalIds data = 25)
    (h10 : outcomeOf dl ((tasks data).getD 9 ("", "")).2 ≠ Outcome.not_retrievable)
    (h20 : outcomeOf dl ((tasks data).getD 19 ("", "")).2 ≠ Outcome.not_retrievable) :
    (run_groups dl data (initState data)).saves.length = 2
      ∧ (∀ r, classify_pdb_batch dl data false = Except.ok r → r.saves.length = 3) := by
  have hL : (tasks data).length = 25 := by rw [tasks_length]; exact h25
  have h2 : (run_groups dl data (initState data)).saves.length = 2 := by
    rw [run_groups_saves_length]
    exact dueSaves_25 dl (tasks data) hL h10 h20
  refine ⟨h2, fun r hr => ?_⟩
  obtain rfl := Except.ok.inj hr
  simp [h2]

/-- Witness for C8 (amended): the all-complete 25-identifier run. -/
theorem claim_C8_witness :
    (run_groups dlOk dataC8 (initState dataC8)).saves.length = 2 :=
  (claim_C8_amended dlOk dataC8 rfl (by decide) (by decide)).1

/-- C9: on an input with zero identifiers, the verbose sequential run raises
(ZeroDivisionError) inside the reporter instead of terminating normally; the
reporter raises exactly when the given total is zero and succeeds on any
nonzero total. -/
theorem claim_C9 (dl : Capability) (data : Mapping) (c i n : Mapping) (N : Nat)
    (h0 : totalIds data = 0) (hN : N ≠ 0) :
    classify_pdb_batch dl data true = Except.error ()
      ∧ verbose_analysis c i n 0 = Except.error ()
      ∧ (∃ p, verbose_analysis c i n N = Except.ok p) := by
  refine ⟨?_, verbose_analysis_err c i n, ⟨_, verbose_analysis_ok c i n N hN⟩⟩
  rw [classify_pdb_batch_true, h0, verbose_analysis_err]

/-- Witness for C9: the verbose run on a collection with one empty group
raises. -/
theorem claim_C9_witness :
    classify_pdb_batch dl0 [("A", [])] true = Except.error () :=
  (claim_C9 dl0 [("A", [])] [] [] [] 1 (by decide) (by decide)).1

/-- C10: neither batch run mutates the caller's input collection: in the
reference-level model, every heap cell of the caller — in particular every
group's identifier list — holds the same value after a sequential or a
parallel run (under any completion order) as before it; only the freshly
allocated category cells are ever written. -/
theorem claim_C10 (dl : Capability) (dataRefs : List (Group × Nat))
    (sched : List (Group × PdbId)) (h : Heap) (i : Nat) (hi : i < h.length) :
    hget (classify_pdb_batch_heap dl dataRefs h).1 i = hget h i
      ∧ hget (parallel_classify_pdb_batch_heap dl dataRefs sched h).1 i = hget h i := by
  obtain ⟨hmaps, hpre⟩ := batch_alloc_facts dataRefs h i hi
  constructor
  · show hget (run_groups_heap dl _ dataRefs _) i = hget h i
    rw [run_groups_heap_preserve dl _ dataRefs h.length i hmaps hi]
    exact hpre
  · show hget (parallel_run_heap dl _ sched _) i = hget h i
    rw [sched_heap_preserve dl _ sched h.length i hmaps hi]
    exact hpre

/-- Witness for C10: group A's input list cell is unchanged by the scenario
run. -/
theorem claim_C10_witness :
    hget (classify_pdb_batch_heap dl0 dataRefs0 heap0).1 0 = hget heap0 0 :=
  (claim_C10 dl0 dataRefs0 [] heap0 0 (by decide)).1

end ClassifyPdbs
